import Mathlib

/-!
Verification of the graph-synthesis core, the navigation state machine and the
selection resolver of the Care Journey Navigator / Career Graph Explorer
Streamlit apps (src/app.py and src/unnamed/part_000).

The JSON payload returned by the analysis service is modelled by
`AnalysisResult` (keys `center_node`, `connections`, `sub_connections`, `name`,
`reason`, `mission`, `positive_news`, `red_flags` as in the apps' prompts).
The graph-build loop of the rendering section is modelled by `synthesize`,
the sidebar/auto-fetch logic of part_000 by `SessionState` and its step
functions, the launch-button/fetch logic of app.py by `AppState`, and the
right-column detail panel of app.py by `resolve`.
-/

namespace CareNav

/-- A `sub_connections` entry of the service response: keys `name`, `reason`. -/
structure SubRelation where
  name : String
  reason : String
  deriving DecidableEq

/-- A `connections` entry of the service response: keys `name`, `reason`,
`sub_connections` (absent key modelled as the empty list, which the code
treats identically). -/
structure Relation where
  name : String
  reason : String
  sub_connections : List SubRelation
  deriving DecidableEq

/-- The `center_node` object of the service response. -/
structure CenterInfo where
  name : String
  type : String
  mission : String
  positive_news : String
  red_flags : String
  deriving DecidableEq

/-- A parsed service response (`data` in the apps). -/
structure AnalysisResult where
  center_node : CenterInfo
  connections : List Relation
  deriving DecidableEq

/-- A `streamlit_agraph` `Node` as constructed by the graph-build loop of
app.py.  `layer` records which of the three `Node(...)` call sites created the
record (0 = center, 1 = connection, 2 = sub-connection); in the source that
classification is encoded by the `size`/`color`/`shape` arguments, which are
kept alongside. -/
structure GNode where
  id : String
  label : String
  size : Nat
  color : String
  title : String
  layer : Nat
  deriving DecidableEq

/-- A `streamlit_agraph` `Edge` (`source`, `target`). -/
structure GEdge where
  source : String
  target : String
  deriving DecidableEq

/-- The node and edge lists handed to `agraph`. -/
structure Graph where
  nodes : List GNode
  edges : List GEdge
  deriving DecidableEq

/-- The center `Node(...)` call (size 45, red, no title). -/
def mkCenterNode (c : CenterInfo) : GNode :=
  ⟨c.name, c.name, 45, "#FF4B4B", "", 0⟩

/-- The layer-1 `Node(...)` call (size 30, blue, `title=item['reason']`). -/
def mkRelationNode (item : Relation) : GNode :=
  ⟨item.name, item.name, 30, "#00C0F2", item.reason, 1⟩

/-- The layer-2 `Node(...)` call (size 20, green, prefixed title). -/
def mkSubNode (sub : SubRelation) : GNode :=
  ⟨sub.name, sub.name, 20, "#1DB954", "Support Resource: " ++ sub.reason, 2⟩

/-- The inner `for sub in item['sub_connections']` loop: conditionally append
a node (guarded by `sub['name'] not in node_ids`), unconditionally append the
edge `(item['name'], sub['name'])`. -/
def processSubs (itemName : String) :
    List SubRelation → List GNode → List GEdge → List String →
    List GNode × List GEdge × List String
  | [], nodes, edges, ids => (nodes, edges, ids)
  | sub :: rest, nodes, edges, ids =>
    if sub.name ∈ ids then
      processSubs itemName rest nodes (edges ++ [⟨itemName, sub.name⟩]) ids
    else
      processSubs itemName rest (nodes ++ [mkSubNode sub])
        (edges ++ [⟨itemName, sub.name⟩]) (ids ++ [sub.name])

/-- The outer `for item in connections` loop: conditionally append a layer-1
node (guarded by `item['name'] not in node_ids`), unconditionally append the
edge `(center, item['name'])`, then run the sub-connection loop. -/
def processConnections (centerName : String) :
    List Relation → List GNode → List GEdge → List String →
    List GNode × List GEdge × List String
  | [], nodes, edges, ids => (nodes, edges, ids)
  | item :: rest, nodes, edges, ids =>
    if item.name ∈ ids then
      let p := processSubs item.name item.sub_connections nodes
        (edges ++ [⟨centerName, item.name⟩]) ids
      processConnections centerName rest p.1 p.2.1 p.2.2
    else
      let p := processSubs item.name item.sub_connections
        (nodes ++ [mkRelationNode item])
        (edges ++ [⟨centerName, item.name⟩]) (ids ++ [item.name])
      processConnections centerName rest p.1 p.2.1 p.2.2

/-- The whole graph-build section: start from the center node (already in
`node_ids`) and fold the connection loop over the response. -/
def synthesize (r : AnalysisResult) : Graph :=
  let p := processConnections r.center_node.name r.connections
    [mkCenterNode r.center_node] [] [r.center_node.name]
  ⟨p.1, p.2.1⟩

/-- All names occurring in a response, in traversal order: the center, then
for each connection its name followed by its sub-connection names. -/
def allNames (r : AnalysisResult) : List String :=
  r.center_node.name ::
    r.connections.flatMap (fun item => item.name :: item.sub_connections.map SubRelation.name)

/-- The edge list the loop produces, written directly as a flat map: one
center edge per connection occurrence, one edge per sub-connection
occurrence (the code appends every edge unconditionally). -/
def edgeList (centerName : String) (conns : List Relation) : List GEdge :=
  conns.flatMap (fun item =>
    GEdge.mk centerName item.name ::
      item.sub_connections.map (fun s => GEdge.mk item.name s.name))

/-- Layer of the node record carrying a given id, if any. -/
def layerOf (g : Graph) (n : String) : Option Nat :=
  (g.nodes.find? (fun nd => nd.id == n)).map GNode.layer

end CareNav

namespace CareNav

/-! State machine of src/unnamed/part_000 (Career Graph Explorer). -/

/-- The session keys of part_000 relevant to navigation. -/
structure SessionState where
  mode : String
  search_term : String
  resume_text : String
  graph_data : Option AnalysisResult
  history : List String
  deriving DecidableEq

/-- `active_query` of the main logic: the search term in Discovery mode, the
resume text otherwise. -/
def activeQuery (s : SessionState) : String :=
  if s.mode = "Discovery" then s.search_term else s.resume_text

/-- The launch button: clear `graph_data`, store the input into the slot the
current mode reads from. -/
def submitQuery (s : SessionState) (input : String) : SessionState :=
  if s.mode = "Discovery" then
    { s with graph_data := none, search_term := input }
  else
    { s with graph_data := none, resume_text := input }

/-- The auto-fetch decision: fetch when no graph is stored, or when in
Discovery mode the stored graph's center name differs from the active query. -/
def shouldFetch (s : SessionState) : Bool :=
  match s.graph_data with
  | none => true
  | some d => s.mode == "Discovery" && d.center_node.name != activeQuery s

/-- Applying a successful fetch: store the data; in Discovery mode append the
returned center name to the history if new, and overwrite `search_term` with
it when it differs from the query that was issued. -/
def applyFetchSuccess (s : SessionState) (data : AnalysisResult) : SessionState :=
  let aq := activeQuery s
  let s1 := { s with graph_data := some data }
  if s1.mode = "Discovery" then
    let realName := data.center_node.name
    let s2 := if realName ∈ s1.history then s1
      else { s1 with history := s1.history ++ [realName] }
    if aq ≠ realName then { s2 with search_term := realName } else s2
  else s1

/-- The `data = get_gemini_response(...)`; `if data:` guard — a failed or
malformed fetch returns `None` and the session is not touched. -/
def applyFetchResult (s : SessionState) (result : Option AnalysisResult) : SessionState :=
  match result with
  | some d => applyFetchSuccess s d
  | none => s

/-! State machine of src/app.py (Care Journey Navigator). -/

/-- The session keys of app.py relevant to fetching. -/
structure AppState where
  graph_data : Option AnalysisResult
  should_fetch : Bool
  deriving DecidableEq

/-- The launch button of app.py: set `should_fetch` and clear `graph_data`. -/
def launchQuery (_s : AppState) : AppState :=
  { graph_data := none, should_fetch := true }

/-- The main logic of app.py: only a truthy (parsed) response is stored;
`None` (any fetch/parse failure) changes nothing. -/
def applyFetch (s : AppState) (result : Option AnalysisResult) : AppState :=
  match result with
  | some d => { graph_data := some d, should_fetch := false }
  | none => s

/-! Selection resolver of src/app.py (right column, Action Details). -/

/-- One inner `for sub in c.get('sub_connections', [])` pass: the first
matching sub-connection overwrites the accumulated display payload and sets
`found`; otherwise the accumulator is kept. -/
def subMatch (selected : String) (c : Relation) (acc : String × String × Bool) :
    String × String × Bool :=
  match c.sub_connections.find? (fun s => s.name == selected) with
  | some s => (s.reason, "Supports action: " ++ c.name, true)
  | none => acc

/-- The payload built when the outer loop matches a connection name. -/
def relationPayload (c : Relation) : String × String × Bool :=
  (c.reason,
    c.sub_connections.foldl (fun acc s => acc ++ "\n- " ++ s.name) "Recommended Resources:",
    true)

/-- The `for c in connections` loop of the detail panel: a connection-name
match breaks out of the loop; a sub-connection match overwrites the payload
but lets the loop continue with later connections. -/
def resolveLoop (selected : String) :
    List Relation → String × String × Bool → String × String × Bool
  | [], acc => acc
  | c :: rest, acc =>
    if c.name = selected then relationPayload c
    else resolveLoop selected rest (subMatch selected c acc)

/-- `selected_node_name = clicked_node if clicked_node else center_info['name']`:
a missing or empty (falsy) click result defaults to the center. -/
def selectedName (center : String) (clicked : Option String) : String :=
  match clicked with
  | none => center
  | some s => if s = "" then center else s

/-- The detail panel: center selection shows mission and positive news,
otherwise the loop result, with the not-found fallback text. -/
def resolve (data : AnalysisResult) (clicked : Option String) : String × String :=
  let sel := selectedName data.center_node.name clicked
  if sel = data.center_node.name then
    (data.center_node.mission, data.center_node.positive_news)
  else
    let t := resolveLoop sel data.connections ("", "", false)
    if t.2.2 then (t.1, t.2.1) else ("Node details not found.", t.2.1)

end CareNav

namespace CareNav

/-! Concrete inputs used by counterexamples and witnesses. -/

/-- A concrete center entity named "X". -/
def exCenterX : CenterInfo := ⟨"X", "t", "m", "p", "rf"⟩

/-- Two connections with the same name "A": exercises the duplicate-relation
path of the loop. -/
def ex2 : AnalysisResult := ⟨exCenterX, [⟨"A", "ra", []⟩, ⟨"A", "ra2", []⟩]⟩

/-- A connection whose name equals the center's: exercises the collision
path of the loop. -/
def ex3 : AnalysisResult := ⟨exCenterX, [⟨"X", "rx", []⟩]⟩

/-- A collision-free response with one connection and one sub-connection. -/
def exW : AnalysisResult := ⟨exCenterX, [⟨"A", "ra", [⟨"B", "rb"⟩]⟩]⟩

/-- A sub-connection name "Z" shared by two different connections: the
multi-parent case. -/
def ex6 : AnalysisResult :=
  ⟨exCenterX, [⟨"Y1", "ry1", [⟨"Z", "rz1"⟩]⟩, ⟨"Y2", "ry2", [⟨"Z", "rz2"⟩]⟩]⟩

/-- The single connection of `exXYZ`. -/
def relY : Relation := ⟨"Y", "r1", [⟨"Z", "r2"⟩]⟩

/-- The spec's worked example: center "X", relation "Y" (rationale "r1"),
sub-relation "Z" (rationale "r2"). -/
def exXYZ : AnalysisResult := ⟨exCenterX, [relY]⟩

/-- A Resume Match response: its center is the fixed label "My Career". -/
def exMyCareer : AnalysisResult := ⟨⟨"My Career", "Candidate", "m", "p", "rf"⟩, []⟩

/-- A canonicalized Discovery response for the query "OpenAI". -/
def rOpenAI : AnalysisResult := ⟨⟨"OpenAI, Inc.", "Company", "m", "p", "rf"⟩, []⟩

/-- A fresh Discovery session. -/
def exS5 : SessionState := ⟨"Discovery", "x", "", none, []⟩

/-- A Resume Match session displaying `exMyCareer`. -/
def exS8 : SessionState := ⟨"Resume Match", "OpenAI", "Experienced engineer", some exMyCareer, []⟩

/-- A Discovery session displaying a graph whose center differs from the
search term. -/
def exS8d : SessionState := ⟨"Discovery", "Acme", "", some rOpenAI, []⟩

/-- An app.py session displaying a good graph. -/
def exApp : AppState := ⟨some exXYZ, false⟩

end CareNav

namespace CareNav

/-! Ghost functions and loop invariants for the graph-build loop. -/

/-- One `node_ids` insertion step: `if name not in node_ids: node_ids.add(name)`. -/
def insertId (ids : List String) (n : String) : List String :=
  if n ∈ ids then ids else ids ++ [n]

/-- Folding `insertId` over a list of names. -/
def insertAll (ids : List String) (ns : List String) : List String :=
  ns.foldl insertId ids

lemma insertAll_cons (ids : List String) (n : String) (ns : List String) :
    insertAll ids (n :: ns) = insertAll (insertId ids n) ns := rfl

lemma insertAll_append (ids : List String) (a b : List String) :
    insertAll ids (a ++ b) = insertAll (insertAll ids a) b := by
  simp [insertAll, List.foldl_append]

lemma insertId_of_mem {ids : List String} {n : String} (h : n ∈ ids) :
    insertId ids n = ids := by
  simp [insertId, h]

lemma insertId_of_not_mem {ids : List String} {n : String} (h : n ∉ ids) :
    insertId ids n = ids ++ [n] := by
  simp [insertId, h]

lemma mem_insertId_left {ids : List String} {x : String} (n : String) (h : x ∈ ids) :
    x ∈ insertId ids n := by
  unfold insertId
  split
  · exact h
  · exact List.mem_append_left _ h

lemma mem_insertAll_left : ∀ (ns ids : List String) (x : String), x ∈ ids → x ∈ insertAll ids ns := by
  intro ns
  induction ns with
  | nil => intro ids x h; exact h
  | cons n rest ih =>
    intro ids x h
    exact ih (insertId ids n) x (mem_insertId_left n h)

lemma nodup_insertId {ids : List String} (n : String) (h : ids.Nodup) :
    (insertId ids n).Nodup := by
  unfold insertId
  split
  · exact h
  · rename_i hn
    simp [List.nodup_append, h, hn]

lemma nodup_insertAll : ∀ (ns ids : List String), ids.Nodup → (insertAll ids ns).Nodup := by
  intro ns
  induction ns with
  | nil => intro ids h; exact h
  | cons n rest ih =>
    intro ids h
    exact ih (insertId ids n) (nodup_insertId n h)

lemma toFinset_insertId (ids : List String) (n : String) :
    (insertId ids n).toFinset = insert n ids.toFinset := by
  unfold insertId
  split
  · rename_i h
    exact (Finset.insert_eq_self.mpr (List.mem_toFinset.mpr h)).symm
  · simp [List.toFinset_append, Finset.insert_eq, Finset.union_comm]

lemma toFinset_insertAll : ∀ (ns ids : List String),
    (insertAll ids ns).toFinset = ids.toFinset ∪ ns.toFinset := by
  intro ns
  induction ns with
  | nil => intro ids; simp [insertAll]
  | cons n rest ih =>
    intro ids
    rw [insertAll_cons, ih, toFinset_insertId]
    simp [Finset.insert_union, Finset.union_insert]

/-! Invariants of the sub-connection loop. -/

lemma processSubs_ids (it : String) (subs : List SubRelation) :
    ∀ nodes edges ids, (processSubs it subs nodes edges ids).2.2 =
      insertAll ids (subs.map SubRelation.name) := by
  induction subs with
  | nil => intro nodes edges ids; rfl
  | cons sub rest ih =>
    intro nodes edges ids
    by_cases h : sub.name ∈ ids
    · rw [processSubs, if_pos h, ih, List.map_cons, insertAll_cons, insertId_of_mem h]
    · rw [processSubs, if_neg h, ih, List.map_cons, insertAll_cons, insertId_of_not_mem h]

lemma processSubs_edges (it : String) (subs : List SubRelation) :
    ∀ nodes edges ids, (processSubs it subs nodes edges ids).2.1 =
      edges ++ subs.map (fun s => GEdge.mk it s.name) := by
  induction subs with
  | nil => intro nodes edges ids; simp [processSubs]
  | cons sub rest ih =>
    intro nodes edges ids
    by_cases h : sub.name ∈ ids
    · rw [processSubs, if_pos h, ih]; simp
    · rw [processSubs, if_neg h, ih]; simp

lemma processSubs_nodes_map (it : String) (subs : List SubRelation) :
    ∀ nodes edges ids, ids = nodes.map GNode.id →
      (processSubs it subs nodes edges ids).1.map GNode.id =
        (processSubs it subs nodes edges ids).2.2 := by
  induction subs with
  | nil => intro nodes edges ids h; simpa [processSubs] using h.symm
  | cons sub rest ih =>
    intro nodes edges ids h
    by_cases hm : sub.name ∈ ids
    · rw [processSubs, if_pos hm]
      exact ih _ _ _ h
    · rw [processSubs, if_neg hm]
      exact ih _ _ _ (by simp [h, mkSubNode])

lemma processSubs_nodes_prefix (it : String) (subs : List SubRelation) :
    ∀ nodes edges ids, ∃ extra, (processSubs it subs nodes edges ids).1 = nodes ++ extra := by
  induction subs with
  | nil => intro nodes edges ids; exact ⟨[], by simp [processSubs]⟩
  | cons sub rest ih =>
    intro nodes edges ids
    by_cases hm : sub.name ∈ ids
    · rw [processSubs, if_pos hm]
      exact ih _ _ _
    · rw [processSubs, if_neg hm]
      obtain ⟨extra, he⟩ := ih (nodes ++ [mkSubNode sub])
        (edges ++ [⟨it, sub.name⟩]) (ids ++ [sub.name])
      exact ⟨mkSubNode sub :: extra, by rw [he]; simp⟩

lemma processSubs_mem_ids (it : String) (subs : List SubRelation)
    (nodes : List GNode) (edges : List GEdge) (ids : List String) (x : String)
    (h : x ∈ ids) : x ∈ (processSubs it subs nodes edges ids).2.2 := by
  rw [processSubs_ids]
  exact mem_insertAll_left _ _ _ h

lemma processSubs_endpoints (it : String) (subs : List SubRelation) :
    ∀ nodes edges ids, it ∈ ids →
      (∀ e ∈ edges, e.source ∈ ids ∧ e.target ∈ ids) →
      ∀ e ∈ (processSubs it subs nodes edges ids).2.1,
        e.source ∈ (processSubs it subs nodes edges ids).2.2 ∧
        e.target ∈ (processSubs it subs nodes edges ids).2.2 := by
  induction subs with
  | nil =>
    intro nodes edges ids _ hinv e he
    simp only [processSubs] at he ⊢
    exact hinv e he
  | cons sub rest ih =>
    intro nodes edges ids hit hinv
    by_cases hm : sub.name ∈ ids
    · rw [processSubs, if_pos hm]
      refine ih _ _ _ hit ?_
      intro e he
      rcases List.mem_append.mp he with h1 | h1
      · exact hinv e h1
      · simp only [List.mem_singleton] at h1
        subst h1
        exact ⟨hit, hm⟩
    · rw [processSubs, if_neg hm]
      refine ih _ _ _ (List.mem_append_left _ hit) ?_
      intro e he
      rcases List.mem_append.mp he with h1 | h1
      · exact ⟨List.mem_append_left _ (hinv e h1).1, List.mem_append_left _ (hinv e h1).2⟩
      · simp only [List.mem_singleton] at h1
        subst h1
        exact ⟨List.mem_append_left _ hit, by simp⟩

/-- Layer a name should get, judging from the full response: the center is
layer 0, a connection name layer 1, anything else layer 2. -/
def classify (center : String) (rels : List String) (n : String) : Nat :=
  if n = center then 0 else if n ∈ rels then 1 else 2

lemma processSubs_layers (center : String) (rels : List String) (it : String)
    (subs : List SubRelation) :
    ∀ nodes edges ids,
      (∀ s ∈ subs, s.name ≠ center ∧ s.name ∉ rels) →
      (∀ nd ∈ nodes, nd.layer = classify center rels nd.id) →
      ∀ nd ∈ (processSubs it subs nodes edges ids).1,
        nd.layer = classify center rels nd.id := by
  induction subs with
  | nil =>
    intro nodes edges ids _ hn nd hnd
    simp only [processSubs] at hnd
    exact hn nd hnd
  | cons sub rest ih =>
    intro nodes edges ids hs hn
    by_cases hm : sub.name ∈ ids
    · rw [processSubs, if_pos hm]
      exact ih _ _ _ (fun s h => hs s (List.mem_cons_of_mem _ h)) hn
    · rw [processSubs, if_neg hm]
      refine ih _ _ _ (fun s h => hs s (List.mem_cons_of_mem _ h)) ?_
      intro nd hnd
      rcases List.mem_append.mp hnd with h1 | h1
      · exact hn nd h1
      · simp only [List.mem_singleton] at h1
        subst h1
        have hc := hs sub (List.mem_cons_self _ _)
        simp [mkSubNode, classify, hc.1, hc.2]

end CareNav

namespace CareNav

/-! Invariants of the connection loop. -/

lemma processConnections_ids (c : String) (conns : List Relation) :
    ∀ nodes edges ids, (processConnections c conns nodes edges ids).2.2 =
      insertAll ids (conns.flatMap (fun item =>
        item.name :: item.sub_connections.map SubRelation.name)) := by
  induction conns with
  | nil => intro nodes edges ids; simp [processConnections, insertAll]
  | cons item rest ih =>
    intro nodes edges ids
    by_cases hm : item.name ∈ ids
    · rw [processConnections, if_pos hm]
      rw [ih, processSubs_ids, List.flatMap_cons, List.cons_append, insertAll_cons,
        insertId_of_mem hm, insertAll_append]
    · rw [processConnections, if_neg hm]
      rw [ih, processSubs_ids, List.flatMap_cons, List.cons_append, insertAll_cons,
        insertId_of_not_mem hm, insertAll_append]

lemma processConnections_edges (c : String) (conns : List Relation) :
    ∀ nodes edges ids, (processConnections c conns nodes edges ids).2.1 =
      edges ++ edgeList c conns := by
  induction conns with
  | nil => intro nodes edges ids; simp [processConnections, edgeList]
  | cons item rest ih =>
    intro nodes edges ids
    by_cases hm : item.name ∈ ids
    · rw [processConnections, if_pos hm]
      rw [ih, processSubs_edges]
      simp [edgeList, List.flatMap_cons]
    · rw [processConnections, if_neg hm]
      rw [ih, processSubs_edges]
      simp [edgeList, List.flatMap_cons]

lemma processConnections_nodes_map (c : String) (conns : List Relation) :
    ∀ nodes edges ids, ids = nodes.map GNode.id →
      (processConnections c conns nodes edges ids).1.map GNode.id =
        (processConnections c conns nodes edges ids).2.2 := by
  induction conns with
  | nil => intro nodes edges ids h; simpa [processConnections] using h.symm
  | cons item rest ih =>
    intro nodes edges ids h
    by_cases hm : item.name ∈ ids
    · rw [processConnections, if_pos hm]
      exact ih _ _ _ (processSubs_nodes_map _ _ _ _ _ h).symm
    · rw [processConnections, if_neg hm]
      exact ih _ _ _ (processSubs_nodes_map _ _ _ _ _ (by simp [h, mkRelationNode])).symm

lemma processConnections_nodes_prefix (c : String) (conns : List Relation) :
    ∀ nodes edges ids, ∃ extra,
      (processConnections c conns nodes edges ids).1 = nodes ++ extra := by
  induction conns with
  | nil => intro nodes edges ids; exact ⟨[], by simp [processConnections]⟩
  | cons item rest ih =>
    intro nodes edges ids
    by_cases hm : item.name ∈ ids
    · rw [processConnections, if_pos hm]
      obtain ⟨e1, h1⟩ := processSubs_nodes_prefix item.name item.sub_connections
        nodes (edges ++ [⟨c, item.name⟩]) ids
      obtain ⟨e2, h2⟩ := ih _ _ _
      exact ⟨e1 ++ e2, by rw [h2, h1, List.append_assoc]⟩
    · rw [processConnections, if_neg hm]
      obtain ⟨e1, h1⟩ := processSubs_nodes_prefix item.name item.sub_connections
        (nodes ++ [mkRelationNode item]) (edges ++ [⟨c, item.name⟩]) (ids ++ [item.name])
      obtain ⟨e2, h2⟩ := ih _ _ _
      exact ⟨mkRelationNode item :: (e1 ++ e2), by rw [h2, h1]; simp⟩

lemma processConnections_mem_ids (c : String) (conns : List Relation)
    (nodes : List GNode) (edges : List GEdge) (ids : List String) (x : String)
    (h : x ∈ ids) : x ∈ (processConnections c conns nodes edges ids).2.2 := by
  rw [processConnections_ids]
  exact mem_insertAll_left _ _ _ h

lemma processConnections_endpoints (c : String) (conns : List Relation) :
    ∀ nodes edges ids, c ∈ ids →
      (∀ e ∈ edges, e.source ∈ ids ∧ e.target ∈ ids) →
      ∀ e ∈ (processConnections c conns nodes edges ids).2.1,
        e.source ∈ (processConnections c conns nodes edges ids).2.2 ∧
        e.target ∈ (processConnections c conns nodes edges ids).2.2 := by
  induction conns with
  | nil =>
    intro nodes edges ids _ hinv e he
    simp only [processConnections] at he ⊢
    exact hinv e he
  | cons item rest ih =>
    intro nodes edges ids hc hinv
    by_cases hm : item.name ∈ ids
    · rw [processConnections, if_pos hm]
      refine ih _ _ _ (processSubs_mem_ids _ _ _ _ _ _ hc) ?_
      refine processSubs_endpoints _ _ _ _ _ hm ?_
      intro e he
      rcases List.mem_append.mp he with h1 | h1
      · exact hinv e h1
      · simp only [List.mem_singleton] at h1
        subst h1
        exact ⟨hc, hm⟩
    · rw [processConnections, if_neg hm]
      refine ih _ _ _ (processSubs_mem_ids _ _ _ _ _ _ (List.mem_append_left _ hc)) ?_
      refine processSubs_endpoints _ _ _ _ _ (by simp) ?_
      intro e he
      rcases List.mem_append.mp he with h1 | h1
      · exact ⟨List.mem_append_left _ (hinv e h1).1, List.mem_append_left _ (hinv e h1).2⟩
      · simp only [List.mem_singleton] at h1
        subst h1
        exact ⟨List.mem_append_left _ hc, by simp⟩

lemma processConnections_layers (center : String) (rels : List String)
    (conns : List Relation) :
    ∀ nodes edges ids,
      (∀ item ∈ conns, (item.name ≠ center ∧ item.name ∈ rels) ∧
        ∀ s ∈ item.sub_connections, s.name ≠ center ∧ s.name ∉ rels) →
      (∀ nd ∈ nodes, nd.layer = classify center rels nd.id) →
      ∀ nd ∈ (processConnections center conns nodes edges ids).1,
        nd.layer = classify center rels nd.id := by
  induction conns with
  | nil =>
    intro nodes edges ids _ hn nd hnd
    simp only [processConnections] at hnd
    exact hn nd hnd
  | cons item rest ih =>
    intro nodes edges ids hcs hn
    have hi := hcs item (List.mem_cons_self _ _)
    by_cases hm : item.name ∈ ids
    · rw [processConnections, if_pos hm]
      exact ih _ _ _ (fun i h => hcs i (List.mem_cons_of_mem _ h))
        (processSubs_layers center rels item.name _ _ _ _ hi.2 hn)
    · rw [processConnections, if_neg hm]
      refine ih _ _ _ (fun i h => hcs i (List.mem_cons_of_mem _ h))
        (processSubs_layers center rels item.name _ _ _ _ hi.2 ?_)
      intro nd hnd
      rcases List.mem_append.mp hnd with h1 | h1
      · exact hn nd h1
      · simp only [List.mem_singleton] at h1
        subst h1
        simp [mkRelationNode, classify, hi.1.1, hi.1.2]

/-! Consequences at the level of `synthesize`. -/

lemma synthesize_nodes (r : AnalysisResult) :
    (synthesize r).nodes = (processConnections r.center_node.name r.connections
      [mkCenterNode r.center_node] [] [r.center_node.name]).1 := rfl

lemma synthesize_edges_def (r : AnalysisResult) :
    (synthesize r).edges = (processConnections r.center_node.name r.connections
      [mkCenterNode r.center_node] [] [r.center_node.name]).2.1 := rfl

lemma synthesize_map_id (r : AnalysisResult) :
    (synthesize r).nodes.map GNode.id =
      insertAll [r.center_node.name] (r.connections.flatMap (fun item =>
        item.name :: item.sub_connections.map SubRelation.name)) := by
  rw [synthesize_nodes, processConnections_nodes_map _ _ _ _ _ (by simp [mkCenterNode]),
    processConnections_ids]

lemma synthesize_map_id_nodup (r : AnalysisResult) :
    ((synthesize r).nodes.map GNode.id).Nodup := by
  rw [synthesize_map_id]
  exact nodup_insertAll _ _ (by simp)

end CareNav

namespace CareNav

/-! Claim theorems: graph synthesizer. -/

/-- C1: `synthesize` never creates two node records for equal names: the node
identities are pairwise distinct, and the number of node records equals the
number of distinct names across the center, the connection names and the
sub-connection names (first occurrence wins, later occurrences add nothing). -/
theorem synthesize_node_dedup (r : AnalysisResult) :
    ((synthesize r).nodes.map GNode.id).Nodup ∧
    (synthesize r).nodes.length = (allNames r).toFinset.card := by
  refine ⟨synthesize_map_id_nodup r, ?_⟩
  have hlen : (synthesize r).nodes.length = ((synthesize r).nodes.map GNode.id).length := by
    rw [List.length_map]
  rw [hlen, ← List.toFinset_card_of_nodup (synthesize_map_id_nodup r), synthesize_map_id,
    toFinset_insertAll]
  congr 1
  simp [allNames, Finset.insert_eq]

/-- C2 counterexample: a response with two connections both named "A" yields
the ordered pair ("X","A") twice in the edge list — the edge collection is
not a set keyed by the ordered pair. -/
theorem synthesize_duplicate_edge_cex :
    (synthesize ex2).edges = [GEdge.mk "X" "A", GEdge.mk "X" "A"] ∧
    (synthesize ex2).edges.count (GEdge.mk "X" "A") = 2 := by decide

/-- C2 amended: edges are appended unconditionally — the edge list is exactly
one center edge per connection occurrence followed by one edge per
sub-connection occurrence, with no membership check, so duplicated names
produce duplicated ordered pairs. -/
theorem synthesize_edges_eq_edgeList (r : AnalysisResult) :
    (synthesize r).edges = edgeList r.center_node.name r.connections := by
  rw [synthesize_edges_def, processConnections_edges]
  simp

/-- C3 counterexample: a connection named like the center produces the
self-loop edge ("X","X") in a graph whose only node is at layer 0, so
layer(source) < layer(target) fails. -/
theorem synthesize_selfloop_cex :
    (synthesize ex3).edges = [GEdge.mk "X" "X"] ∧
    (synthesize ex3).nodes.map GNode.layer = [0] := by decide

/-- Membership characterization of the produced edge list. -/
lemma mem_edgeList {e : GEdge} {c : String} {conns : List Relation} :
    e ∈ edgeList c conns ↔ ∃ item ∈ conns, e = GEdge.mk c item.name ∨
      ∃ s ∈ item.sub_connections, GEdge.mk item.name s.name = e := by
  simp [edgeList]

/-- C3 amended: both endpoints of every edge always exist as nodes; and if no
connection name equals the center's name and no sub-connection name equals
the center's name or any connection name, then every edge goes from a
strictly lower layer to a strictly higher one. -/
theorem synthesize_edge_endpoints_layers (r : AnalysisResult) :
    (∀ e ∈ (synthesize r).edges,
      (∃ nd ∈ (synthesize r).nodes, nd.id = e.source) ∧
      (∃ nd ∈ (synthesize r).nodes, nd.id = e.target)) ∧
    ((∀ item ∈ r.connections, item.name ≠ r.center_node.name) →
      (∀ item ∈ r.connections, ∀ s ∈ item.sub_connections,
        s.name ≠ r.center_node.name ∧ s.name ∉ r.connections.map Relation.name) →
      ∀ e ∈ (synthesize r).edges,
        ∀ na ∈ (synthesize r).nodes, ∀ nb ∈ (synthesize r).nodes,
          na.id = e.source → nb.id = e.target → na.layer < nb.layer) := by
  constructor
  · intro e he
    have hmem := processConnections_endpoints r.center_node.name r.connections
      [mkCenterNode r.center_node] [] [r.center_node.name] (by simp) (by simp) e he
    have hmap := processConnections_nodes_map r.center_node.name r.connections
      [mkCenterNode r.center_node] [] [r.center_node.name] (by simp [mkCenterNode])
    rw [← hmap] at hmem
    rw [synthesize_nodes]
    constructor
    · obtain ⟨nd, hnd, hid⟩ := List.mem_map.mp hmem.1
      exact ⟨nd, hnd, hid⟩
    · obtain ⟨nd, hnd, hid⟩ := List.mem_map.mp hmem.2
      exact ⟨nd, hnd, hid⟩
  · intro h1 h2 e he na hna nb hnb hsa hsb
    have hcl : ∀ nd ∈ (synthesize r).nodes,
        nd.layer = classify r.center_node.name (r.connections.map Relation.name) nd.id := by
      rw [synthesize_nodes]
      refine processConnections_layers _ _ _ _ _ _ ?_ ?_
      · intro item hit
        exact ⟨⟨h1 item hit, List.mem_map_of_mem _ hit⟩, h2 item hit⟩
      · intro nd hnd
        simp only [List.mem_singleton] at hnd
        subst hnd
        simp [mkCenterNode, classify]
    have hedge : e ∈ edgeList r.center_node.name r.connections := by
      have := processConnections_edges r.center_node.name r.connections
        [mkCenterNode r.center_node] [] [r.center_node.name]
      rw [synthesize_edges_def] at he
      rw [this] at he
      simpa using he
    rcases mem_edgeList.mp hedge with ⟨item, hit, hce | ⟨s, hs, hse⟩⟩
    · subst hce
      have hc0 : classify r.center_node.name (r.connections.map Relation.name)
          r.center_node.name = 0 := by
        simp [classify]
      have hc1 : classify r.center_node.name (r.connections.map Relation.name)
          item.name = 1 := by
        simp [classify, h1 item hit, List.mem_map_of_mem Relation.name hit]
      have hsa2 : na.id = r.center_node.name := hsa
      have hsb2 : nb.id = item.name := hsb
      rw [hcl na hna, hcl nb hnb, hsa2, hsb2, hc0, hc1]
      exact Nat.zero_lt_one
    · subst hse
      have hc1 : classify r.center_node.name (r.connections.map Relation.name)
          item.name = 1 := by
        simp [classify, h1 item hit, List.mem_map_of_mem Relation.name hit]
      have hc2 : classify r.center_node.name (r.connections.map Relation.name)
          s.name = 2 := by
        simp [classify, (h2 item hit s hs).1, (h2 item hit s hs).2]
      have hsa2 : na.id = item.name := hsa
      have hsb2 : nb.id = s.name := hsb
      rw [hcl na hna, hcl nb hnb, hsa2, hsb2, hc1, hc2]
      exact Nat.one_lt_two

/-- C3 witness: on the collision-free response `exW` the amended theorem
applies to the edge ("X","A") with all hypotheses discharged. -/
theorem synthesize_edge_endpoints_layers_w :
    ((∃ nd ∈ (synthesize exW).nodes, nd.id = "X") ∧
      (∃ nd ∈ (synthesize exW).nodes, nd.id = "A")) ∧
    (∀ na ∈ (synthesize exW).nodes, ∀ nb ∈ (synthesize exW).nodes,
      na.id = "X" → nb.id = "A" → na.layer < nb.layer) :=
  ⟨(synthesize_edge_endpoints_layers exW).1 (GEdge.mk "X" "A") (by decide),
    (synthesize_edge_endpoints_layers exW).2 (by decide) (by decide)
      (GEdge.mk "X" "A") (by decide)⟩

/-- C4: the center's name is carried by exactly one node record, and any node
record with the center's name is the layer-0 center node — also when a
connection or sub-connection shares the center's name. -/
theorem synthesize_center_unique_layer0 (r : AnalysisResult) :
    ((synthesize r).nodes.filter (fun nd => nd.id == r.center_node.name)).length = 1 ∧
    ∀ nd ∈ (synthesize r).nodes, nd.id = r.center_node.name → nd.layer = 0 := by
  obtain ⟨extra, hex⟩ := processConnections_nodes_prefix r.center_node.name r.connections
    [mkCenterNode r.center_node] [] [r.center_node.name]
  have hnodes : (synthesize r).nodes = mkCenterNode r.center_node :: extra := by
    rw [synthesize_nodes, hex]
    simp
  have hnotin : ∀ nd ∈ extra, nd.id ≠ r.center_node.name := by
    have h := synthesize_map_id_nodup r
    rw [hnodes] at h
    simp only [List.map_cons, List.nodup_cons] at h
    intro nd hnd heq
    exact h.1 (by
      have : (mkCenterNode r.center_node).id = nd.id := by simp [mkCenterNode, heq]
      rw [this]
      exact List.mem_map_of_mem _ hnd)
  constructor
  · rw [hnodes, List.filter_cons, if_pos (by simp [mkCenterNode]),
      List.filter_eq_nil_iff.mpr (by
        intro nd hnd
        simpa using hnotin nd hnd)]
    rfl
  · rw [hnodes]
    intro nd hnd heq
    rcases List.mem_cons.mp hnd with h | h
    · subst h
      simp [mkCenterNode]
    · exact absurd heq (hnotin nd h)

/-- C4 witness: instantiated on the duplicate-name response `ex2`, with the
layer fact applied to the concrete center node record. -/
theorem synthesize_center_unique_layer0_w :
    ((synthesize ex2).nodes.filter (fun nd => nd.id == ex2.center_node.name)).length = 1 ∧
    (mkCenterNode exCenterX).layer = 0 :=
  ⟨(synthesize_center_unique_layer0 ex2).1,
    (synthesize_center_unique_layer0 ex2).2 (mkCenterNode exCenterX) (by decide) (by decide)⟩

/-- C9: `synthesize` is a pure function of its input — identical inputs yield
identical node and edge collections (stated order-insensitively). -/
theorem synthesize_deterministic (r1 r2 : AnalysisResult) (h : r1 = r2) :
    (synthesize r1).nodes.toFinset = (synthesize r2).nodes.toFinset ∧
    (synthesize r1).edges.toFinset = (synthesize r2).edges.toFinset := by
  subst h
  exact ⟨rfl, rfl⟩

/-- C9 witness: the determinism theorem applied to the concrete response `exW`. -/
theorem synthesize_deterministic_w :
    (synthesize exW).nodes.toFinset = (synthesize exW).nodes.toFinset ∧
    (synthesize exW).edges.toFinset = (synthesize exW).edges.toFinset :=
  synthesize_deterministic exW exW rfl

end CareNav

namespace CareNav

/-! Claim theorems: navigation state machine. -/

/-- C5: on a successful Discovery fetch the session focus is overwritten with
the returned (possibly canonicalized) center name, whatever query was
submitted. -/
theorem fetch_success_canonicalizes_focus (s : SessionState) (q : String)
    (r : AnalysisResult) (h : s.mode = "Discovery") :
    (applyFetchSuccess (submitQuery s q) r).search_term = r.center_node.name := by
  by_cases hq : q = r.center_node.name <;>
    by_cases hh : r.center_node.name ∈ s.history <;>
      simp [submitQuery, applyFetchSuccess, activeQuery, h, hq, hh]

/-- C5 witness: submitting "OpenAI" and receiving a result centered on
"OpenAI, Inc." leaves the focus at "OpenAI, Inc.". -/
theorem fetch_success_canonicalizes_focus_w :
    (applyFetchSuccess (submitQuery exS5 "OpenAI") rOpenAI).search_term = "OpenAI, Inc." :=
  fetch_success_canonicalizes_focus exS5 "OpenAI" rOpenAI rfl

/-- C8 counterexample: a Resume Match session displaying a graph whose center
("My Career") differs from the desired focus triggers no fetch — the
mismatched graph is kept as the displayed state. -/
theorem resume_mode_no_refetch_cex :
    shouldFetch exS8 = false ∧
    exS8.graph_data = some exMyCareer ∧
    exMyCareer.center_node.name ≠ activeQuery exS8 ∧
    exMyCareer.center_node.name ≠ exS8.search_term := by decide

/-- C8 amended: in Discovery mode only, a displayed graph whose center name
differs from the current search term forces a fetch. -/
theorem discovery_stale_refetch (s : SessionState) (d : AnalysisResult)
    (h1 : s.mode = "Discovery") (h2 : s.graph_data = some d)
    (h3 : d.center_node.name ≠ s.search_term) :
    shouldFetch s = true := by
  simp [shouldFetch, h2, activeQuery, h1, h3]

/-- C8 witness: a Discovery session displaying a graph centered on
"OpenAI, Inc." while the search term is "Acme" refetches. -/
theorem discovery_stale_refetch_w : shouldFetch exS8d = true :=
  discovery_stale_refetch exS8d rOpenAI rfl rfl (by decide)

/-- C7 counterexample: in app.py the launch button clears the stored graph
before the fetch, so a malformed response (fetch yielding `None`) leaves no
graph — not the last good one. -/
theorem fetch_failure_after_submit_cex :
    (applyFetch (launchQuery exApp) none).graph_data = none ∧
    exApp.graph_data = some exXYZ := by decide

/-- C7 amended: a failed or malformed fetch by itself changes nothing — no
partial response is ever stored (in either app) — but the graph shown after
a submit-then-failure is the cleared one, because the submit cleared it. -/
theorem fetch_failure_leaves_state :
    (∀ s : AppState, applyFetch s none = s) ∧
    (∀ s : SessionState, applyFetchResult s none = s) :=
  ⟨fun _ => rfl, fun _ => rfl⟩

/-! Claim theorems: selection resolver. -/

/-- C10: an empty or absent click result resolves to the center's payload,
exactly as if the center node had been clicked. -/
theorem resolve_default_center (data : AnalysisResult) :
    resolve data none = (data.center_node.mission, data.center_node.positive_news) ∧
    resolve data (some "") = (data.center_node.mission, data.center_node.positive_news) ∧
    resolve data (some data.center_node.name) =
      (data.center_node.mission, data.center_node.positive_news) := by
  refine ⟨by simp [resolve, selectedName], by simp [resolve, selectedName], ?_⟩
  by_cases h : data.center_node.name = "" <;> simp [resolve, selectedName, h]

/-- C6 counterexample: "Z" is a sub-connection of both "Y1" and "Y2", yet the
resolver's payload names only the last parent "Y2" (and its rationale from
that occurrence), not all parents. -/
theorem resolve_multi_parent_cex :
    resolve ex6 (some "Z") = ("rz2", "Supports action: Y2") ∧
    ex6.connections.map Relation.name = ["Y1", "Y2"] ∧
    (∀ c ∈ ex6.connections, ∃ s ∈ c.sub_connections, s.name = "Z") := by decide

/-- Whether a connection has a sub-connection with the selected name. -/
def hasSubMatch (selected : String) (c : Relation) : Bool :=
  c.sub_connections.any (fun s => s.name == selected)

lemma subMatch_of_some {selected : String} {c : Relation} {sm : SubRelation}
    (h : c.sub_connections.find? (fun s => s.name == selected) = some sm)
    (acc : String × String × Bool) :
    subMatch selected c acc = (sm.reason, "Supports action: " ++ c.name, true) := by
  simp [subMatch, h]

lemma subMatch_of_no_match {selected : String} {c : Relation}
    (h : hasSubMatch selected c = false) (acc : String × String × Bool) :
    subMatch selected c acc = acc := by
  have hf : c.sub_connections.find? (fun s => s.name == selected) = none := by
    rw [List.find?_eq_none]
    intro x hx hb
    have ha : c.sub_connections.any (fun s => s.name == selected) = true :=
      List.any_eq_true.mpr ⟨x, hx, hb⟩
    rw [hasSubMatch, ha] at h
    simp at h
  simp [subMatch, hf]

lemma foldl_subMatch_no_match (selected : String) :
    ∀ (conns : List Relation) (acc : String × String × Bool),
      (∀ c ∈ conns, hasSubMatch selected c = false) →
      conns.foldl (fun a c => subMatch selected c a) acc = acc := by
  intro conns
  induction conns with
  | nil => intro acc _; rfl
  | cons c rest ih =>
    intro acc h
    rw [List.foldl_cons, subMatch_of_no_match (h c (List.mem_cons_self _ _))]
    exact ih acc (fun x hx => h x (List.mem_cons_of_mem _ hx))

lemma foldl_subMatch_last (selected : String) :
    ∀ (conns : List Relation) (acc : String × String × Bool)
      (lc : Relation) (sm : SubRelation),
      (conns.filter (fun c => hasSubMatch selected c)).getLast? = some lc →
      lc.sub_connections.find? (fun s => s.name == selected) = some sm →
      conns.foldl (fun a c => subMatch selected c a) acc =
        (sm.reason, "Supports action: " ++ lc.name, true) := by
  intro conns
  induction conns with
  | nil =>
    intro acc lc sm h2 _
    simp at h2
  | cons c rest ih =>
    intro acc lc sm h2 h3
    by_cases hm : hasSubMatch selected c = true
    · rw [List.filter_cons, if_pos hm] at h2
      cases hfr : rest.filter (fun c => hasSubMatch selected c) with
      | nil =>
        rw [hfr, List.getLast?_singleton, Option.some_inj] at h2
        subst h2
        have hrest : ∀ x ∈ rest, hasSubMatch selected x = false := by
          intro x hx
          by_contra hc
          have : x ∈ rest.filter (fun c => hasSubMatch selected c) :=
            List.mem_filter.mpr ⟨hx, by simpa using hc⟩
          rw [hfr] at this
          simp at this
        rw [List.foldl_cons, foldl_subMatch_no_match selected rest _ hrest]
        exact subMatch_of_some h3 acc
      | cons y ys =>
        rw [hfr, List.getLast?_cons_cons] at h2
        rw [List.foldl_cons]
        exact ih _ _ _ (by rw [hfr]; exact h2) h3
    · rw [List.filter_cons, if_neg hm] at h2
      rw [List.foldl_cons, subMatch_of_no_match (by simpa using hm)]
      exact ih _ _ _ h2 h3

lemma resolveLoop_eq_foldl (selected : String) :
    ∀ (conns : List Relation) (acc : String × String × Bool),
      (∀ c ∈ conns, c.name ≠ selected) →
      resolveLoop selected conns acc =
        conns.foldl (fun a c => subMatch selected c a) acc := by
  intro conns
  induction conns with
  | nil => intro acc _; rfl
  | cons c rest ih =>
    intro acc h
    rw [resolveLoop, if_neg (h c (List.mem_cons_self _ _)), List.foldl_cons]
    exact ih _ (fun x hx => h x (List.mem_cons_of_mem _ hx))

/-- C6 amended: for a name that is not the center and not any connection
name, but occurs among sub-connections, the resolver returns the rationale
and the single parent back-reference taken from the LAST connection whose
sub-connections contain it (first matching sub-connection within that
connection) — only one parent, not all of them. -/
theorem resolve_sub_last_parent (data : AnalysisResult) (selected : String)
    (lc : Relation) (sm : SubRelation)
    (h0 : selected ≠ data.center_node.name) (hne : selected ≠ "")
    (h1 : ∀ c ∈ data.connections, c.name ≠ selected)
    (h2 : (data.connections.filter (fun c => hasSubMatch selected c)).getLast? = some lc)
    (h3 : lc.sub_connections.find? (fun s => s.name == selected) = some sm) :
    resolve data (some selected) = (sm.reason, "Supports action: " ++ lc.name) := by
  simp only [resolve, selectedName]
  rw [if_neg hne, if_neg h0,
    resolveLoop_eq_foldl selected data.connections _ h1,
    foldl_subMatch_last selected data.connections _ lc sm h2 h3]
  simp

/-- C6 witness: on the spec's worked example (center "X", relation "Y" with
rationale "r1", sub-relation "Z" with rationale "r2"), resolving "Z" yields
rationale "r2" and the parent back-reference to "Y". -/
theorem resolve_sub_last_parent_w :
    resolve exXYZ (some "Z") = ("r2", "Supports action: " ++ "Y") :=
  resolve_sub_last_parent exXYZ "Z" relY ⟨"Z", "r2"⟩
    (by decide) (by decide) (by decide) (by decide) (by decide)

end CareNav
